import Mathlib

/-!
Verification of the fan-out/fan-in downloader from goroutines.go and of the
generalized task runner described in the specification.

The concrete program in goroutines.go is embedded directly: the function
`download` is embedded through the message it sends on the channel, and
`main` through the trace of its events (three goroutine launches, three
channel receives, one final print). The generalized runner (Run, Collector,
timeout and partial-failure policy, channel capacities) exists only in the
specification, not in the source tree; those parts are modelled from the
specification and marked as such in their doc comments.
-/

deriving instance DecidableEq for Except

namespace Goroutines

/-- The message that `download site c` sends on the channel, from the source
line `c <- site + " is done!"` in goroutines.go. -/
def downloadMessage (site : String) : String := site ++ " is done!"

/-- The list of messages a single call `download site c` sends on the
channel: the body of `download` performs exactly one send, unconditionally. -/
def downloadSends (site : String) : List String := [downloadMessage site]

/-- The three sites `main` launches downloads for, in program order, from
the three `go download(...)` lines of goroutines.go. -/
def sites : List String := ["Google.com", "Amazon.com", "Github.com"]

/-- Events of the embedded `main`: launching one goroutine with
`go download(site, c)`, receiving one value from the channel with `<-c`,
and the final `fmt.Println("All downloads finished!")`. -/
inductive Event where
  | spawn (site : String)
  | recv (msg : String)
  | printDone
deriving DecidableEq

/-- The trace of `main` when the three downloads complete in the order given
by `order`: first the three launches in program order, then the three
receives in completion order, then the final print. -/
def mainTrace (order : List String) : List Event :=
  sites.map Event.spawn
    ++ order.map (fun s => Event.recv (downloadMessage s))
    ++ [Event.printDone]

/-- An execution of `main`: the channel is unbuffered and `main` is the only
receiver, so the three receives return the three sent messages in some
completion order, which is an arbitrary permutation of the launch order. -/
def IsMainExec (t : List Event) : Prop :=
  ∃ order : List String, order.Perm sites ∧ t = mainTrace order

/-- Whether an event is a channel receive by `main`. -/
def isRecvEvent : Event → Bool
  | .recv _ => true
  | _ => false

/-- Whether an event is a goroutine launch by `main`. -/
def isSpawnEvent : Event → Bool
  | .spawn _ => true
  | _ => false

/-- Count of results received within a trace. -/
def receivedCount (t : List Event) : Nat := t.countP isRecvEvent

/-- Count of tasks dispatched within a trace. -/
def dispatchedCount (t : List Event) : Nat := t.countP isSpawnEvent

/-- Modelled from the spec: the outcome of the zero-argument operation of a
Task, which either succeeds with a value after a given logical duration,
fails with an error after a given logical duration, or never completes.
The source tree contains no Task type; only the toy `download` exists. -/
inductive TaskOutcome (α : Type) where
  | success (value : α) (duration : Nat)
  | failure (err : String) (duration : Nat)
  | never
deriving DecidableEq

/-- Modelled from the spec: a Task is a unit of work with a string key and
a zero-argument operation, here represented by its outcome. -/
structure Task (α : Type) where
  key : String
  outcome : TaskOutcome α
deriving DecidableEq

/-- Modelled from the spec: a Result echoes the key of its originating Task
and carries exactly one of a value or a failure indicator. -/
structure Result (α : Type) where
  key : String
  outcome : Except String α
deriving DecidableEq

/-- The value carried by a Result, if it did not fail. -/
def Result.value {α : Type} (r : Result α) : Option α :=
  match r.outcome with
  | .ok v => some v
  | .error _ => none

/-- Whether a Result carries the failure indicator. -/
def Result.failed {α : Type} (r : Result α) : Bool :=
  match r.outcome with
  | .ok _ => false
  | .error _ => true

/-- Whether a Task is one whose operation fails. -/
def Task.failed {α : Type} (t : Task α) : Bool :=
  match t.outcome with
  | .failure _ _ => true
  | _ => false

/-- Modelled from the spec: whether a Task completes (with a value or a
failure) within the given logical timeout, all tasks starting at time 0. -/
def Task.completesBy {α : Type} (t : Task α) (timeout : Nat) : Bool :=
  match t.outcome with
  | .success _ d => d ≤ timeout
  | .failure _ d => d ≤ timeout
  | .never => false

/-- Modelled from the spec: the Result a completed Task delivers to the
Result Channel, or `none` when its operation never completes. -/
def Task.result {α : Type} (t : Task α) : Option (Result α) :=
  match t.outcome with
  | .success v _ => some ⟨t.key, .ok v⟩
  | .failure e _ => some ⟨t.key, .error e⟩
  | .never => none

/-- Modelled from the spec: the error cases of `Run`. `timeout` is the
TimeoutError, reporting the still-outstanding Task keys and the elapsed
logical time; `someFailed` is the PartialFailureError, reporting which keys
failed while still carrying every collected Result. -/
inductive RunError (α : Type) where
  | timeout (outstanding : List String) (elapsed : Nat)
  | someFailed (failedKeys : List String) (results : List (Result α))
deriving DecidableEq

/-- Keys of the tasks that do not complete within the timeout. -/
def outstandingKeys {α : Type} (tasks : List (Task α)) (timeout : Nat) : List String :=
  (tasks.filter (fun t => !t.completesBy timeout)).map Task.key

/-- Keys of the Results that carry the failure indicator. -/
def failedKeysOf {α : Type} (results : List (Result α)) : List String :=
  (results.filter Result.failed).map Result.key

/-- Modelled from the spec: `Run(tasks, timeout)`. The argument `arrival`
is the submitted tasks listed in completion order, an arbitrary permutation
of the submission order chosen by the scheduler. If every task completes
within the timeout, the Collector pulls all results; the run succeeds when
none failed and reports a PartialFailureError otherwise. If some task does
not complete in time, the run fails at time `timeout` with a TimeoutError
listing the outstanding keys. -/
def run {α : Type} (arrival : List (Task α)) (timeout : Nat) :
    Except (RunError α) (List (Result α)) :=
  if arrival.all (fun t => t.completesBy timeout) then
    let results := arrival.filterMap Task.result
    if (failedKeysOf results).isEmpty then .ok results
    else .error (.someFailed (failedKeysOf results) results)
  else
    .error (.timeout (outstandingKeys arrival timeout) timeout)

/-- The Results a run delivers to its caller: the collected list on success,
the collected list carried by a PartialFailureError, and nothing on a
TimeoutError. -/
def runResults {α : Type} (arrival : List (Task α)) (timeout : Nat) :
    Option (List (Result α)) :=
  match run arrival timeout with
  | .ok rs => some rs
  | .error (.someFailed _ rs) => some rs
  | .error (.timeout _ _) => none

/-- Modelled from the spec: the Collector performs one pull per expected
result; given expected count `n` it pulls `n` times from the stream of
arriving results, and fails when the stream is exhausted first. -/
def collect {α : Type} : Nat → List α → Option (List α)
  | 0, _ => some []
  | _ + 1, [] => none
  | n + 1, r :: rest => (collect n rest).map (r :: ·)

/-- Modelled from the spec: the logical completion time of an outcome,
`none` when the operation never completes. -/
def TaskOutcome.time {α : Type} : TaskOutcome α → Option Nat
  | .success _ d => some d
  | .failure _ d => some d
  | .never => none

/-- The completion times of a list of tasks, or `none` when some task never
completes. -/
def timesOf {α : Type} : List (Task α) → Option (List Nat)
  | [] => some []
  | t :: ts =>
    match t.outcome.time, timesOf ts with
    | some d, some ds => some (d :: ds)
    | _, _ => none

/-- Modelled from the spec: all executions start concurrently at time 0, so
a run with every task completing finishes when the slowest task does. -/
def makespan {α : Type} (tasks : List (Task α)) : Option Nat :=
  (timesOf tasks).map (List.foldr max 0)

/-- Modelled from the spec: the time the same tasks would take one after
another, without goroutines. -/
def sequentialTime {α : Type} (tasks : List (Task α)) : Option Nat :=
  (timesOf tasks).map List.sum

/-- The Task corresponding to one `go download(site, c)` of goroutines.go:
it always succeeds, with the message `download` sends, after the 2 second
`time.Sleep`. -/
def toyTask (site : String) : Task String :=
  ⟨site, .success (downloadMessage site) 2⟩

/-- The three tasks main submits, in program order. -/
def toyTasks : List (Task String) := sites.map toyTask

/-- The three Results of the example scenario of the spec, in program
order. -/
def expectedResults : List (Result String) :=
  [⟨"Google.com", .ok "Google.com is done!"⟩,
   ⟨"Amazon.com", .ok "Amazon.com is done!"⟩,
   ⟨"Github.com", .ok "Github.com is done!"⟩]

/-- Modelled from the spec: the state of the Result Channel, with its
configured buffering capacity, the queue of undelivered Results, and
whether the Collector is currently blocked on a pull. -/
structure ChanState (α : Type) where
  capacity : Nat
  buffer : List α
  receiverWaiting : Bool
deriving DecidableEq

/-- Labels of channel transitions: a producer completing a push, the
consumer completing a pull from the queue, and the consumer starting to
wait on an empty channel. -/
inductive ChanLabel (α : Type) where
  | push (v : α)
  | pull (v : α)
  | beginPull
deriving DecidableEq

/-- Modelled from the spec: the transitions of the Result Channel. A push
on a channel of positive capacity appends to the queue and is possible only
while the queue is below capacity; a push on a zero-capacity channel hands
the value directly to a waiting Collector (rendezvous); a pull takes the
oldest queued value; the Collector may start waiting on an empty channel. -/
inductive ChanStep {α : Type} : ChanState α → ChanLabel α → ChanState α → Prop where
  | pushBuffered (cap : Nat) (buf : List α) (w : Bool) (v : α) :
      buf.length < cap →
      ChanStep ⟨cap, buf, w⟩ (.push v) ⟨cap, buf ++ [v], w⟩
  | pushRendezvous (v : α) :
      ChanStep ⟨0, [], true⟩ (.push v) ⟨0, [], false⟩
  | pullBuffered (cap : Nat) (v : α) (buf : List α) (w : Bool) :
      ChanStep ⟨cap, v :: buf, w⟩ (.pull v) ⟨cap, buf, false⟩
  | beginPull (cap : Nat) :
      ChanStep ⟨cap, [], false⟩ .beginPull ⟨cap, [], true⟩

/-- The channel states reachable from the freshly made channel of capacity
`cap` (empty queue, no waiting receiver). -/
inductive ChanReachable {α : Type} (cap : Nat) : ChanState α → Prop where
  | start : ChanReachable cap ⟨cap, [], false⟩
  | step {s s' : ChanState α} {l : ChanLabel α} :
      ChanReachable cap s → ChanStep s l s' → ChanReachable cap s'

/-! Helper lemmas shared by several claims. -/

lemma result_key {α : Type} {t : Task α} {r : Result α} (h : t.result = some r) :
    r.key = t.key := by
  cases t with
  | mk k o =>
    cases o with
    | success v d => simp [Task.result] at h; simp [← h]
    | failure e d => simp [Task.result] at h; simp [← h]
    | never => simp [Task.result] at h

lemma result_isSome_of_completesBy {α : Type} {t : Task α} {T : Nat}
    (h : t.completesBy T = true) : (t.result).isSome = true := by
  cases t with
  | mk k o =>
    cases o with
    | success v d => simp [Task.result]
    | failure e d => simp [Task.result]
    | never => simp [Task.completesBy] at h

lemma keys_of_results {α : Type} (l : List (Task α))
    (h : ∀ t ∈ l, (t.result).isSome = true) :
    (l.filterMap Task.result).map Result.key = l.map Task.key := by
  induction l with
  | nil => simp
  | cons t ts ih =>
    obtain ⟨r, hr⟩ := Option.isSome_iff_exists.mp (h t (by simp))
    rw [List.filterMap_cons, hr]
    simp only [List.map_cons, result_key hr]
    rw [ih (fun u hu => h u (by simp [hu]))]

lemma result_mem {α : Type} {l : List (Task α)} {t : Task α} {r : Result α}
    (ht : t ∈ l) (hr : t.result = some r) : r ∈ l.filterMap Task.result :=
  List.mem_filterMap.mpr ⟨t, ht, hr⟩

lemma failedKeys_filterMap {α : Type} (l : List (Task α)) (T : Nat)
    (h : ∀ t ∈ l, t.completesBy T = true) :
    failedKeysOf (l.filterMap Task.result) = (l.filter Task.failed).map Task.key := by
  induction l with
  | nil => simp [failedKeysOf]
  | cons t ts ih =>
    have ht := h t (by simp)
    have hrest := ih (fun u hu => h u (by simp [hu]))
    cases t with
    | mk k o =>
      cases o with
      | success v d =>
        simpa [failedKeysOf, Task.result, Task.failed, Result.failed,
          List.filterMap_cons, List.filter_cons] using hrest
      | failure e d =>
        simpa [failedKeysOf, Task.result, Task.failed, Result.failed,
          List.filterMap_cons, List.filter_cons] using hrest
      | never => simp [Task.completesBy] at ht

lemma timesOf_const {α : Type} (l : List (Task α)) (T : Nat)
    (h : ∀ t ∈ l, t.outcome.time = some T) :
    timesOf l = some (List.replicate l.length T) := by
  induction l with
  | nil => simp [timesOf]
  | cons t ts ih =>
    have ht := h t (by simp)
    have hrest := ih (fun u hu => h u (by simp [hu]))
    simp [timesOf, ht, hrest, List.replicate_succ]

lemma foldr_max_replicate (n T : Nat) (h : 0 < n) :
    (List.replicate n T).foldr max 0 = T := by
  induction n with
  | zero => omega
  | succ m ih =>
    rcases Nat.eq_zero_or_pos m with hm | hm
    · subst hm; simp [List.replicate_succ]
    · simp [List.replicate_succ, ih hm]

lemma collect_of_le {α : Type} :
    ∀ (n : Nat) (s : List α), n ≤ s.length → collect n s = some (s.take n)
  | 0, s, _ => by simp [collect]
  | n + 1, [], h => by simp at h
  | n + 1, r :: rest, h => by
    have := collect_of_le n rest (by simpa using h)
    simp [collect, this]

lemma collect_of_lt {α : Type} :
    ∀ (n : Nat) (s : List α), s.length < n → collect n s = none
  | 0, s, h => by simp at h
  | n + 1, [], _ => by simp [collect]
  | n + 1, r :: rest, h => by
    have := collect_of_lt n rest (by simpa using h)
    simp [collect, this]

lemma collect_length {α : Type} :
    ∀ (n : Nat) (s : List α) (rs : List α), collect n s = some rs → rs.length = n
  | 0, s, rs, h => by simp [collect] at h; simp [← h]
  | n + 1, [], rs, h => by simp [collect] at h
  | n + 1, r :: rest, rs, h => by
    simp only [collect, Option.map_eq_some'] at h
    obtain ⟨a, ha, rfl⟩ := h
    simp [collect_length n rest a ha]

lemma collect_isSome_iff {α : Type} (n : Nat) (s : List α) :
    (collect n s).isSome = true ↔ n ≤ s.length := by
  rcases le_or_lt n s.length with h | h
  · simp [collect_of_le n s h, h]
  · simp [collect_of_lt n s h]; omega

/-! Counting lemmas about the events of the embedded `main`. -/

lemma countP_recv_spawns :
    (sites.map Event.spawn).countP isRecvEvent = 0 := rfl

lemma countP_spawn_spawns :
    (sites.map Event.spawn).countP isSpawnEvent = 3 := rfl

lemma countP_recv_recvs (order : List String) :
    (order.map (fun s => Event.recv (downloadMessage s))).countP isRecvEvent
      = order.length := by
  rw [show order.length = (order.map (fun s => Event.recv (downloadMessage s))).length
    by simp]
  exact List.countP_eq_length.mpr (by intro e he; obtain ⟨s, _, rfl⟩ := List.mem_map.mp he; rfl)

lemma countP_spawn_recvs (order : List String) :
    (order.map (fun s => Event.recv (downloadMessage s))).countP isSpawnEvent = 0 :=
  List.countP_eq_zero.mpr (by intro e he; obtain ⟨s, _, rfl⟩ := List.mem_map.mp he; simp [isSpawnEvent])

/-- C9: in the source program a task's operation can never fail — `download`
unconditionally sends exactly the single message `site ++ " is done!"` on the
channel, so the failure branch of a Result is unreachable and every Result
carries a value. -/
theorem download_never_fails (site : String) :
    downloadSends site = [site ++ " is done!"] ∧
    (toyTask site).failed = false ∧
    (toyTask site).result = some ⟨site, .ok (site ++ " is done!")⟩ ∧
    (Result.failed ⟨site, (.ok (site ++ " is done!") : Except String String)⟩) = false ∧
    (Result.value ⟨site, (.ok (site ++ " is done!") : Except String String)⟩)
      = some (site ++ " is done!") :=
  ⟨rfl, rfl, rfl, rfl, rfl⟩

/-- C3: the Collector, given expected count n, performs exactly n pulls from
the stream of arriving results and returns those n Results; success does not
depend on the arrival order, and the Collector comes back empty-handed
(deferring to the timeout path) exactly when fewer than n results arrive. -/
theorem collector_exact_pulls {α : Type} (n : Nat) (stream : List α) :
    (n ≤ stream.length → collect n stream = some (stream.take n)) ∧
    (∀ rs, collect n stream = some rs → rs.length = n) ∧
    (collect n stream = none ↔ stream.length < n) ∧
    (∀ stream' : List α, stream.Perm stream' →
      ((collect n stream).isSome ↔ (collect n stream').isSome)) := by
  refine ⟨collect_of_le n stream, fun rs h => collect_length n stream rs h, ?_, ?_⟩
  · rw [← Option.not_isSome_iff_eq_none, collect_isSome_iff]
    omega
  · intro s' hp
    rw [collect_isSome_iff, collect_isSome_iff, hp.length_eq]

/-- Witness for C3 at expected count 3 and a concrete three-element stream. -/
theorem collector_exact_pulls_witness :
    collect 3 ["a", "b", "c"] = some ["a", "b", "c"] := by
  have h := (collector_exact_pulls 3 ["a", "b", "c"]).1 (by decide)
  simpa using h

/-- C8: three tasks whose operations each take T time units complete the
whole run in T time units under concurrent launch, not the 3T units the
same tasks take one after another. -/
theorem concurrency_speedup {α : Type} (k₁ k₂ k₃ : String) (v₁ v₂ v₃ : α) (T : Nat)
    (hT : 0 < T) :
    makespan [⟨k₁, .success v₁ T⟩, ⟨k₂, .success v₂ T⟩, ⟨k₃, .success v₃ T⟩] = some T ∧
    sequentialTime [⟨k₁, .success v₁ T⟩, ⟨k₂, .success v₂ T⟩, ⟨k₃, .success v₃ T⟩]
      = some (3 * T) ∧
    T < 3 * T := by
  refine ⟨?_, ?_, by omega⟩
  · simp [makespan, timesOf, TaskOutcome.time]
  · simp [sequentialTime, timesOf, TaskOutcome.time]
    omega

/-- Witness for C8 at T = 2 with three concrete tasks. -/
theorem concurrency_speedup_witness :
    makespan ([⟨"a", .success "x" 2⟩, ⟨"b", .success "y" 2⟩, ⟨"c", .success "z" 2⟩]
        : List (Task String)) = some 2 ∧
    sequentialTime ([⟨"a", .success "x" 2⟩, ⟨"b", .success "y" 2⟩, ⟨"c", .success "z" 2⟩]
        : List (Task String)) = some 6 ∧
    2 < 6 := by
  have h := concurrency_speedup "a" "b" "c" "x" "y" "z" 2 (by decide)
  simpa using h

/-- C2: no-loss — whenever every submitted task completes within the
timeout, the run delivers Results whose multiset of keys equals the multiset
of keys of the submitted Tasks, for every completion order. -/
theorem run_no_loss {α : Type} (tasks arrival : List (Task α)) (T : Nat)
    (hperm : arrival.Perm tasks)
    (hall : ∀ t ∈ arrival, t.completesBy T = true) :
    ∃ rs, runResults arrival T = some rs ∧
      (rs.map Result.key).Perm (tasks.map Task.key) := by
  have hall' : arrival.all (fun t => t.completesBy T) = true := List.all_eq_true.mpr hall
  have hkeys : ((arrival.filterMap Task.result).map Result.key) = arrival.map Task.key :=
    keys_of_results arrival (fun t ht => result_isSome_of_completesBy (hall t ht))
  refine ⟨arrival.filterMap Task.result, ?_, ?_⟩
  · by_cases hf : (failedKeysOf (arrival.filterMap Task.result)).isEmpty
    · simp [runResults, run, hall', hf]
    · simp [runResults, run, hall', hf]
  · rw [hkeys]
    exact hperm.map Task.key

/-- Witness for C2 with one concrete succeeding task. -/
theorem run_no_loss_witness :
    ∃ rs, runResults [(⟨"A", .success "x" 1⟩ : Task String)] 2 = some rs ∧
      (rs.map Result.key).Perm (([⟨"A", .success "x" 1⟩] : List (Task String)).map Task.key) :=
  run_no_loss [⟨"A", .success "x" 1⟩] [⟨"A", .success "x" 1⟩] 2
    (List.Perm.refl _) (by decide)

/-- C4: when some submitted task does not complete within the caller-supplied
timeout, the run fails with a TimeoutError at elapsed time equal to the
timeout, and that error reports exactly the keys of the still-outstanding
tasks. -/
theorem run_timeout_reports {α : Type} (arrival : List (Task α)) (T : Nat)
    (h : ∃ t ∈ arrival, t.completesBy T = false) :
    run arrival T = .error (.timeout (outstandingKeys arrival T) T) ∧
    ∀ k, k ∈ outstandingKeys arrival T ↔
      ∃ t ∈ arrival, t.key = k ∧ t.completesBy T = false := by
  have hall : arrival.all (fun t => t.completesBy T) = false := by
    obtain ⟨t, ht, hf⟩ := h
    by_contra hc
    rw [Bool.not_eq_false, List.all_eq_true] at hc
    have := hc t ht
    rw [this] at hf
    exact Bool.noConfusion hf
  constructor
  · simp [run, hall]
  · intro k
    simp only [outstandingKeys, List.mem_map, List.mem_filter]
    constructor
    · rintro ⟨t, ⟨ht, hnc⟩, rfl⟩
      exact ⟨t, ht, rfl, by simpa using hnc⟩
    · rintro ⟨t, ht, rfl, hnc⟩
      exact ⟨t, ⟨ht, by simp [hnc]⟩, rfl⟩

/-- Witness for C4: one never-completing task with timeout 7 yields a
TimeoutError at time 7 listing that task's key. -/
theorem run_timeout_reports_witness :
    run [(⟨"K", TaskOutcome.never⟩ : Task String)] 7 = .error (.timeout ["K"] 7) := by
  have h := (run_timeout_reports [(⟨"K", TaskOutcome.never⟩ : Task String)] 7
    ⟨⟨"K", TaskOutcome.never⟩, by simp, rfl⟩).1
  have e : outstandingKeys [(⟨"K", TaskOutcome.never⟩ : Task String)] 7 = ["K"] := rfl
  rw [e] at h
  exact h

/-- C5: when every task completes but some operations fail, the run surfaces
a PartialFailureError naming exactly the failed tasks' keys while still
carrying every Result; each sibling task's Result keeps its key slot and
remains retrievable, so an individual failure is never a missing result. -/
theorem run_partial_failure_reports {α : Type} (arrival : List (Task α)) (T : Nat)
    (hall : ∀ t ∈ arrival, t.completesBy T = true)
    (hsome : ∃ t ∈ arrival, t.failed = true) :
    run arrival T = .error (.someFailed ((arrival.filter Task.failed).map Task.key)
        (arrival.filterMap Task.result)) ∧
    ((arrival.filterMap Task.result).map Result.key) = arrival.map Task.key ∧
    ∀ t ∈ arrival, ∀ r, t.result = some r → r ∈ arrival.filterMap Task.result := by
  have hall' : arrival.all (fun t => t.completesBy T) = true := List.all_eq_true.mpr hall
  have hfk := failedKeys_filterMap arrival T hall
  have hne : (arrival.filter Task.failed) ≠ [] := by
    obtain ⟨t, ht, hf⟩ := hsome
    intro hnil
    have hmem : t ∈ arrival.filter Task.failed := List.mem_filter.mpr ⟨ht, hf⟩
    rw [hnil] at hmem
    exact List.not_mem_nil t hmem
  have hemp : (failedKeysOf (arrival.filterMap Task.result)).isEmpty = false := by
    rw [hfk]
    simpa using hne
  refine ⟨?_, keys_of_results arrival (fun t ht => result_isSome_of_completesBy (hall t ht)),
    fun t ht r hr => result_mem ht hr⟩
  simp [run, hall', hemp, hfk]
  exact hsome

/-- Witness for C5: of two tasks the second fails; the run reports a
PartialFailureError naming exactly that key while both Results are
delivered. -/
theorem run_partial_failure_reports_witness :
    run [(⟨"A", .success "x" 1⟩ : Task String), ⟨"B", .failure "boom" 1⟩] 5
      = .error (.someFailed ["B"] [⟨"A", .ok "x"⟩, ⟨"B", .error "boom"⟩]) := by
  have h := (run_partial_failure_reports
      [(⟨"A", .success "x" 1⟩ : Task String), ⟨"B", .failure "boom" 1⟩] 5
      (by decide) ⟨⟨"B", .failure "boom" 1⟩, by decide, rfl⟩).1
  have e1 : (([⟨"A", .success "x" 1⟩, ⟨"B", .failure "boom" 1⟩]
      : List (Task String)).filter Task.failed).map Task.key = ["B"] := rfl
  have e2 : ([⟨"A", .success "x" 1⟩, ⟨"B", .failure "boom" 1⟩]
      : List (Task String)).filterMap Task.result
      = [⟨"A", .ok "x"⟩, ⟨"B", .error "boom"⟩] := rfl
  rw [e1, e2] at h
  exact h

/-- C1: running the mechanism on the three tasks Google.com, Amazon.com and
Github.com, each succeeding after 2 time units with the message `download`
sends, returns within 2 time units exactly 3 Results whose values are the
three `... is done!` strings in some completion order, and the value
delivered for each site s equals s concatenated with " is done!". -/
theorem run_toy_scenario (arrival : List (Task String)) (h : arrival.Perm toyTasks) :
    ∃ rs, run arrival 5 = .ok rs ∧ rs.length = 3 ∧ rs.Perm expectedResults ∧
      (∀ r ∈ rs, r.value = some (r.key ++ " is done!")) ∧
      makespan arrival = some 2 := by
  have hshape : ∀ t ∈ arrival, ∃ s ∈ sites, toyTask s = t := by
    intro t ht
    exact List.mem_map.mp (by simpa [toyTasks] using h.mem_iff.mp ht)
  have hall : ∀ t ∈ arrival, t.completesBy 5 = true := by
    intro t ht
    obtain ⟨s, _, rfl⟩ := hshape t ht
    rfl
  have hall' : arrival.all (fun t => t.completesBy 5) = true := List.all_eq_true.mpr hall
  have heq : toyTasks.filterMap Task.result = expectedResults := rfl
  have hrs : (arrival.filterMap Task.result).Perm expectedResults := heq ▸ h.filterMap Task.result
  have hfilter : (arrival.filterMap Task.result).filter Result.failed = [] := by
    have hp := hrs.filter Result.failed
    have e : expectedResults.filter Result.failed = [] := rfl
    rw [e] at hp
    exact hp.eq_nil
  have hemp : (failedKeysOf (arrival.filterMap Task.result)).isEmpty = true := by
    simp [failedKeysOf, hfilter]
  refine ⟨arrival.filterMap Task.result, by simp [run, hall', hemp], ?_, hrs, ?_, ?_⟩
  · rw [hrs.length_eq]
    rfl
  · intro r hr
    have hmem : r ∈ expectedResults := hrs.mem_iff.mp hr
    have : r = (⟨"Google.com", .ok "Google.com is done!"⟩ : Result String)
        ∨ r = (⟨"Amazon.com", .ok "Amazon.com is done!"⟩ : Result String)
        ∨ r = (⟨"Github.com", .ok "Github.com is done!"⟩ : Result String) := by
      simpa [expectedResults] using hmem
    rcases this with rfl | rfl | rfl <;> rfl
  · have htimes : ∀ t ∈ arrival, t.outcome.time = some 2 := by
      intro t ht
      obtain ⟨s, _, rfl⟩ := hshape t ht
      rfl
    have hlen : arrival.length = 3 := by
      rw [h.length_eq]
      rfl
    have ht := timesOf_const arrival 2 htimes
    rw [hlen] at ht
    simp [makespan, ht]

/-- Witness for C1 at the completion order equal to the launch order. -/
theorem run_toy_scenario_witness :
    ∃ rs, run toyTasks 5 = .ok rs ∧ rs.length = 3 ∧ rs.Perm expectedResults ∧
      (∀ r ∈ rs, r.value = some (r.key ++ " is done!")) ∧
      makespan toyTasks = some 2 :=
  run_toy_scenario toyTasks (List.Perm.refl _)

/-- C6: the RunState invariant holds at every point of every execution of
`main` — in every trace prefix the count of results received is at most the
count of tasks dispatched, and at successful completion both counts equal
3. -/
theorem main_run_state_invariant (t : List Event) (h : IsMainExec t) :
    (∀ n, receivedCount (t.take n) ≤ dispatchedCount (t.take n)) ∧
    receivedCount t = 3 ∧ dispatchedCount t = 3 := by
  obtain ⟨order, hperm, rfl⟩ := h
  have hlen : order.length = 3 := by
    rw [hperm.length_eq]
    rfl
  have hassoc : mainTrace order
      = sites.map Event.spawn
        ++ ((order.map fun s => Event.recv (downloadMessage s)) ++ [Event.printDone]) := by
    simp [mainTrace]
  refine ⟨?_, ?_, ?_⟩
  · intro n
    have hsplit : (mainTrace order).take n
        = ((sites.map Event.spawn).take n)
          ++ (((order.map fun s => Event.recv (downloadMessage s))
              ++ [Event.printDone]).take (n - 3)) := by
      rw [hassoc, List.take_append_eq_append_take]
      rfl
    have e2 : ((sites.map Event.spawn).take n).countP isRecvEvent = 0 := by
      have hle := List.Sublist.countP_le isRecvEvent (List.take_sublist n (sites.map Event.spawn))
      rw [countP_recv_spawns] at hle
      omega
    have e3 : (((order.map fun s => Event.recv (downloadMessage s))
        ++ [Event.printDone]).take (n - 3)).countP isRecvEvent ≤ n - 3 := by
      have h1 : (((order.map fun s => Event.recv (downloadMessage s))
          ++ [Event.printDone]).take (n - 3)).countP isRecvEvent
          ≤ (((order.map fun s => Event.recv (downloadMessage s))
          ++ [Event.printDone]).take (n - 3)).length :=
        List.countP_le_length _
      rw [List.length_take] at h1
      exact le_trans h1 (min_le_left _ _)
    have e4 : (((order.map fun s => Event.recv (downloadMessage s))
        ++ [Event.printDone]).take (n - 3)).countP isRecvEvent ≤ 3 := by
      have h1 := List.Sublist.countP_le isRecvEvent
        (List.take_sublist (n - 3)
          ((order.map fun s => Event.recv (downloadMessage s)) ++ [Event.printDone]))
      rw [List.countP_append, countP_recv_recvs, hlen] at h1
      have e0 : ([Event.printDone]).countP isRecvEvent = 0 := rfl
      rw [e0] at h1
      omega
    have e6 : ((sites.map Event.spawn).take n).countP isSpawnEvent = min n 3 := by
      have hall : ∀ e ∈ (sites.map Event.spawn).take n, isSpawnEvent e = true := by
        intro e he
        obtain ⟨s, _, rfl⟩ := List.mem_map.mp (List.mem_of_mem_take he)
        rfl
      rw [List.countP_eq_length.mpr hall, List.length_take]
      rfl
    show ((mainTrace order).take n).countP isRecvEvent
      ≤ ((mainTrace order).take n).countP isSpawnEvent
    rw [hsplit, List.countP_append, List.countP_append, e2, e6]
    omega
  · show (mainTrace order).countP isRecvEvent = 3
    rw [hassoc, List.countP_append, List.countP_append, countP_recv_spawns,
      countP_recv_recvs, hlen]
    rfl
  · show (mainTrace order).countP isSpawnEvent = 3
    rw [hassoc, List.countP_append, List.countP_append, countP_spawn_spawns,
      countP_spawn_recvs]
    rfl

/-- Witness for C6 at the completion order equal to the launch order. -/
theorem main_run_state_invariant_witness :
    receivedCount ((mainTrace sites).take 4) ≤ dispatchedCount ((mainTrace sites).take 4) ∧
    receivedCount (mainTrace sites) = 3 ∧ dispatchedCount (mainTrace sites) = 3 := by
  have h := main_run_state_invariant (mainTrace sites) ⟨sites, List.Perm.refl _, rfl⟩
  exact ⟨h.1 4, h.2.1, h.2.2⟩

/-- C10: in every execution of `main` the completion message is emitted only
after all three results have been received — the final print is the last
event of the trace, and at any position holding the final print exactly 3
channel receives strictly precede it. -/
theorem print_after_receives (t : List Event) (h : IsMainExec t) :
    t.getLast? = some Event.printDone ∧
    ∀ i, t[i]? = some Event.printDone → receivedCount (t.take i) = 3 := by
  obtain ⟨order, hperm, rfl⟩ := h
  have hlen : order.length = 3 := by
    rw [hperm.length_eq]
    rfl
  have hmt : mainTrace order
      = (sites.map Event.spawn ++ (order.map fun s => Event.recv (downloadMessage s)))
        ++ [Event.printDone] := rfl
  have hABlen : (sites.map Event.spawn
      ++ (order.map fun s => Event.recv (downloadMessage s))).length = 6 := by
    simp [sites, hlen]
  constructor
  · rw [hmt]
    exact List.getLast?_concat _
  · intro i hi
    obtain ⟨hilt, hval⟩ := List.getElem?_eq_some_iff.mp hi
    have h7 : (mainTrace order).length = 7 := by
      rw [hmt, List.length_append, hABlen]
      rfl
    rw [h7] at hilt
    rcases lt_or_ge i 6 with hlt | hge
    · exfalso
      rw [hmt, List.getElem?_append, hABlen] at hi
      rw [if_pos hlt] at hi
      obtain ⟨hl2, hv⟩ := List.getElem?_eq_some_iff.mp hi
      have hm : Event.printDone
          ∈ sites.map Event.spawn ++ (order.map fun s => Event.recv (downloadMessage s)) :=
        hv ▸ List.getElem_mem hl2
      rcases List.mem_append.mp hm with h1 | h1
      · obtain ⟨s, _, hs⟩ := List.mem_map.mp h1
        exact Event.noConfusion hs
      · obtain ⟨s, _, hs⟩ := List.mem_map.mp h1
        exact Event.noConfusion hs
    · have hi6 : i = 6 := by omega
      subst hi6
      have htake : (mainTrace order).take 6
          = sites.map Event.spawn ++ (order.map fun s => Event.recv (downloadMessage s)) := by
        rw [hmt, List.take_append_eq_append_take, hABlen,
          List.take_of_length_le hABlen.le]
        simp
      show ((mainTrace order).take 6).countP isRecvEvent = 3
      rw [htake, List.countP_append, countP_recv_spawns, countP_recv_recvs, hlen]

/-- Witness for C10 at the completion order equal to the launch order, where
the final print sits at position 6. -/
theorem print_after_receives_witness :
    receivedCount ((mainTrace sites).take 6) = 3 :=
  (print_after_receives (mainTrace sites) ⟨sites, List.Perm.refl _, rfl⟩).2 6 (by decide)

lemma chanReachable_invariant {α : Type} {cap : Nat} {s : ChanState α}
    (h : ChanReachable cap s) :
    s.capacity = cap ∧ s.buffer.length ≤ cap ∧ (cap = 0 → s.buffer = []) := by
  induction h with
  | start => exact ⟨rfl, by simp, fun _ => rfl⟩
  | step hr hs ih =>
    cases hs with
    | pushBuffered cap' buf w v hlt =>
      obtain ⟨hc, hle, hz⟩ := ih
      refine ⟨hc, ?_, ?_⟩
      · simp only at hc ⊢
        subst hc
        simpa using hlt
      · intro h0
        simp only at hc
        subst hc
        subst h0
        omega
    | pushRendezvous v =>
      obtain ⟨hc, _, _⟩ := ih
      exact ⟨hc, by simp, fun _ => rfl⟩
    | pullBuffered cap' v buf w =>
      obtain ⟨hc, hle, hz⟩ := ih
      refine ⟨hc, ?_, ?_⟩
      · simp only [List.length_cons] at hle ⊢
        omega
      · intro h0
        have := hz h0
        simp at this
    | beginPull cap' =>
      obtain ⟨hc, hle, hz⟩ := ih
      exact ⟨hc, by simp, fun _ => rfl⟩

/-- C7: on a reachable Result Channel of zero buffering capacity, a push can
complete exactly when the Collector is waiting on a matching pull
(rendezvous); on a reachable channel of bounded capacity K > 0, a push is
blocked exactly when K undelivered Results are already queued. -/
theorem channel_push_blocking {α : Type} (cap : Nat) (s : ChanState α)
    (h : ChanReachable cap s) :
    (cap = 0 → ∀ v : α, (∃ s', ChanStep s (.push v) s') ↔ s.receiverWaiting = true) ∧
    (0 < cap → ∀ v : α, (¬∃ s', ChanStep s (.push v) s') ↔ s.buffer.length = cap) := by
  obtain ⟨hc, hle, hz⟩ := chanReachable_invariant h
  obtain ⟨c, buf, w⟩ := s
  simp only at hc hle hz
  subst hc
  constructor
  · intro h0 v
    subst h0
    have hbuf : buf = [] := hz rfl
    subst hbuf
    constructor
    · rintro ⟨s', hs⟩
      cases hs with
      | pushBuffered _ _ _ _ hlt => simp at hlt
      | pushRendezvous _ => rfl
    · intro hw
      subst hw
      exact ⟨⟨0, [], false⟩, ChanStep.pushRendezvous v⟩
  · intro h0 v
    show (¬∃ s', ChanStep ⟨c, buf, w⟩ (.push v) s') ↔ buf.length = c
    constructor
    · intro hno
      by_contra hne
      have hlt : buf.length < c := by omega
      exact hno ⟨⟨c, buf ++ [v], w⟩, ChanStep.pushBuffered c buf w v hlt⟩
    · intro heq
      rintro ⟨s', hs⟩
      cases hs with
      | pushBuffered _ _ _ _ hlt => omega
      | pushRendezvous _ => omega

/-- Witness for C7: on the freshly made rendezvous channel of goroutines.go,
with no Collector yet waiting, no push can complete. -/
theorem channel_push_blocking_witness :
    ¬∃ s', ChanStep (⟨0, [], false⟩ : ChanState String) (.push "r") s' := by
  intro hex
  have h := ((channel_push_blocking 0 ⟨0, [], false⟩ ChanReachable.start).1 rfl "r").mp hex
  exact Bool.noConfusion h

end Goroutines
